import Mathlib

/-!
Verification of the SaleDealFam affiliate-bot repository.

The definitions below are shallow embeddings of the Python source:
`scheduled_bot.py` (progress persistence, link-cursor selection, Amazon
affiliate-link conversion, GitHub commit protocol, website feed update,
process exit policy), `amazon_scraper_scheduled.py` (link-store load/save)
and `bot.py` (Flipkart/EarnKaro conversion).  Machine-level concerns
(floats, timestamps, logging) that no claim depends on are omitted from
the records; every branch a claim depends on is modelled faithfully.
-/

/- ### Link validation (`scheduled_bot.py`, `is_valid_amazon_link`) -/

/-- Lowercase an ASCII letter; models the effect of `re.IGNORECASE` on the
ASCII-only patterns used by `is_valid_amazon_link`. -/
def lowerCh (c : Char) : Char :=
  if 'A' ≤ c ∧ c ≤ 'Z' then Char.ofNat (c.toNat + 32) else c

/-- Substring test on character lists: does `needle` occur contiguously in
the second argument?  Models `re.search` of a literal pattern. -/
def containsSub (needle : List Char) : List Char → Bool
  | [] => needle.isEmpty
  | c :: cs => needle.isPrefixOf (c :: cs) || containsSub needle cs

/-- The literal patterns of `is_valid_amazon_link` (each regex is a literal
string once the escaped dots are resolved). -/
def amazon_patterns : List String :=
  ["amazon.in", "amazon.com", "amzn.to", "/dp/", "/gp/product/"]

/-- `is_valid_amazon_link` from `scheduled_bot.py`: a link is valid when it
is a non-empty string and one of the patterns occurs in it,
case-insensitively. -/
def is_valid_amazon_link (link : String) : Bool :=
  if link = "" then false
  else amazon_patterns.any
    (fun p => containsSub (p.toList.map lowerCh) (link.toList.map lowerCh))

/- ### Progress persistence (`scheduled_bot.py`, `save_progress`) -/

/-- The `(cycle_number, position_in_cycle)` pair computed and persisted by
`save_progress`: derived from `current_index` and `len(self.links)`, with
the special case at a positive multiple of the store size, where the code
overrides the derived values with `(index // total, total)`. -/
def save_progress (links : List String) (current_index : Nat) : Nat × Nat :=
  if links.isEmpty then (1, 1)
  else
    let total_links := links.length
    let cycle_number := current_index / total_links + 1
    let position_in_cycle := current_index % total_links + 1
    if 0 < current_index ∧ current_index % total_links = 0 then
      (current_index / total_links, total_links)
    else
      (cycle_number, position_in_cycle)

/- ### Link cursor (`scheduled_bot.py`, `get_next_links`) -/

/-- The `while` loop of `get_next_links`: while fewer than `count` links are
selected and attempts remain, wrap the index to 0 when it reaches the end
of the store, select the current link if it is valid, and advance. -/
def selectLoop (links : List String) (count : Nat) :
    Nat → Nat → List String → List String × Nat
  | 0, current_index, selected => (selected, current_index)
  | fuel + 1, current_index, selected =>
    if selected.length < count then
      let idx := if links.length ≤ current_index then 0 else current_index
      let link := links.getD idx ""
      let selected' :=
        if is_valid_amazon_link link then selected ++ [link] else selected
      selectLoop links count fuel (idx + 1) selected'
    else (selected, current_index)

/-- `get_next_links`: returns `[]` with the cursor unchanged when the store
is empty, otherwise runs the selection loop with `max_attempts` equal to
twice the store size.  Returns the selection and the new cursor. -/
def get_next_links (links : List String) (current_index count : Nat) :
    List String × Nat :=
  if links.isEmpty then ([], current_index)
  else selectLoop links count (links.length * 2) current_index []

/-- A sequence of `get_next_links` calls threading the cursor; returns the
concatenation of the selections and the final cursor. -/
def takeSeq (links : List String) : Nat → List Nat → List String × Nat
  | idx, [] => ([], idx)
  | idx, c :: cs =>
    let r := get_next_links links idx c
    let rest := takeSeq links r.2 cs
    (r.1 ++ rest.1, rest.2)

/- ### Session selection (`scheduled_bot.py`, `send_scheduled_links`) -/

/-- `telegram_links` quota of `SESSION_CONFIG`, with the `.get` default of
the `morning` entry. -/
def SESSION_CONFIG_telegram_links (session_type : String) : Nat :=
  if session_type = "morning" then 3
  else if session_type = "afternoon" then 3
  else if session_type = "evening" then 2
  else if session_type = "night" then 2
  else 3

/-- `website_links` quota of `SESSION_CONFIG`, with the `.get` default of
the `morning` entry. -/
def SESSION_CONFIG_website_links (session_type : String) : Nat :=
  if session_type = "morning" then 2
  else if session_type = "afternoon" then 2
  else if session_type = "evening" then 1
  else if session_type = "night" then 1
  else 2

/-- The two selections made by `send_scheduled_links`: an empty pair when
the store is empty, otherwise two sequential `get_next_links` calls on the
same cursor — telegram quota first, then website quota. -/
def send_scheduled_links_selections (links : List String)
    (current_index telegram_count website_count : Nat) :
    List String × List String :=
  if links.isEmpty then ([], [])
  else
    let t := get_next_links links current_index telegram_count
    let w := get_next_links links t.2 website_count
    (t.1, w.1)

/- ### GitHub commit protocol (`scheduled_bot.py`, `commit_to_github` and
`get_progress_from_github`).  The HTTP exchange is modelled by the status
codes and payloads of the responses the repository would return. -/

/-- Python truthiness of an optional string (`None` and `""` are falsy). -/
def falsyOpt : Option String → Bool
  | none => true
  | some s => s = ""

/-- The revision token captured by `commit_to_github` from the preliminary
GET: the response `sha` field when the status is 200, absent otherwise. -/
def commit_captured_sha (getStatus : Nat) (getSha : String) : Option String :=
  if getStatus = 200 then some getSha else none

/-- The revision token actually placed in the PUT payload: the code's
`if sha:` test drops a falsy token, so an empty captured token is also
omitted. -/
def commit_request_sha (getStatus : Nat) (getSha : String) : Option String :=
  match commit_captured_sha getStatus getSha with
  | some s => if s = "" then none else some s
  | none => none

/-- Whether one commit attempt reports success: exactly when the PUT status
is 200 or 201. -/
def commit_to_github_success (putStatus : Nat) : Bool :=
  putStatus = 200 || putStatus = 201

/-- One attempt of `get_progress_from_github`: `none` without a token, the
decoded `current_index` on a 200, and `none` on a 404 (or any other
non-200 status once the retries are exhausted). -/
def get_progress_from_github (token : Option String) (status : Nat)
    (current_index : Nat) : Option Nat :=
  if falsyOpt token then none
  else if status = 200 then some current_index
  else none

/- ### Process exit policy (`scheduled_bot.py`, `main`) -/

/-- Whether `main`'s environment validation finds a missing required
variable (Python truthiness: unset or empty). -/
def main_required_missing (bot_token channel_id amazon_tag github_token :
    Option String) : Bool :=
  falsyOpt bot_token || falsyOpt channel_id || falsyOpt amazon_tag ||
    falsyOpt github_token

/-- The process exit status of `main`: 1 when a required variable is
missing, 1 when no valid links were loaded, 1 when the session raises an
unrecoverable exception, and 0 on normal completion — regardless of the
number of items actually sent (`sent_count` is only logged). -/
def main_exit_code (bot_token channel_id amazon_tag github_token :
    Option String) (link_count : Nat) (session_raises : Bool)
    (sent_count : Nat) : Nat :=
  if main_required_missing bot_token channel_id amazon_tag github_token then 1
  else if link_count = 0 then 1
  else if session_raises then 1
  else 0

/- ### Website feed update (`scheduled_bot.py`, `update_website_products`) -/

/-- `update_website_products`: each new product is inserted at position 0,
iterating over `reversed(new_products)`, and the merged feed is truncated
to the latest 100 products. -/
def update_website_products {α : Type} (new_products website_products :
    List α) : List α :=
  (new_products.reverse.foldl (fun acc p => p :: acc) website_products).take 100

/- ### Link store save (`amazon_scraper_scheduled.py`, `save_links` and
`load_existing_links`) -/

/-- Order-preserving removal of duplicates keeping the first occurrence;
models `list(dict.fromkeys(...))`. -/
def dedupFirstAux (seen : List String) : List String → List String
  | [] => []
  | x :: xs =>
    if x ∈ seen then dedupFirstAux seen xs
    else x :: dedupFirstAux (x :: seen) xs

/-- `save_links`: concatenates the enumeration of the existing-link set
with the new links and removes duplicates keeping first occurrences.
`existing_links` is `list(self.existing_links)` — an enumeration of the
set built by `load_existing_links`. -/
def save_links (existing_links new_links : List String) : List String :=
  dedupFirstAux [] (existing_links ++ new_links)

/-- `load_existing_links` returns `set(data['links'])`; the list the
scraper later builds from it can be any enumeration of that set: a
duplicate-free list with exactly the stored links as members.  Python set
iteration order for strings is unspecified (hash-randomised). -/
def isSetEnumerationOf (enum stored : List String) : Prop :=
  enum.Nodup ∧ (∀ x ∈ enum, x ∈ stored) ∧ (∀ x ∈ stored, x ∈ enum)

/- ### Affiliate conversion (`scheduled_bot.py`, `convert_amazon_link`) -/

/-- One scanning step of `re.sub(r'[?&]KEY=[^&]*', '', url)`: drop every
character from a `?` or `&` introducing `KEY=` up to (but excluding) the
next `&`. `dropUntilAmp` consumes the greedy `[^&]*` part. -/
def dropUntilAmp : List Char → List Char
  | [] => []
  | c :: cs => if c = '&' then c :: cs else dropUntilAmp cs

/-- `re.sub(r'[?&]KEY=[^&]*', '', url)` by leftmost, non-overlapping
matching; the fuel argument (instantiated with the input length) only
makes the recursion structural, every character consumed costs at least
one unit. -/
def stripParamFuel (key : List Char) : Nat → List Char → List Char
  | _, [] => []
  | 0, l => l
  | fuel + 1, c :: cs =>
    if (c = '?' ∨ c = '&') ∧ (key ++ ['=']).isPrefixOf cs = true then
      stripParamFuel key fuel (dropUntilAmp (cs.drop (key.length + 1)))
    else c :: stripParamFuel key fuel cs

/-- `re.sub(r'[?&]KEY=[^&]*', '', url)` on strings. -/
def strip_param (key : String) (url : String) : String :=
  String.mk (stripParamFuel key.toList url.toList.length url.toList)

/-- A character of the class `[A-Z0-9]` used by the ASIN patterns. -/
def isAsinChar (c : Char) : Bool :=
  ('A' ≤ c && c ≤ 'Z') || ('0' ≤ c && c ≤ '9')

/-- Match of the regex `/dp/([A-Z0-9]{10})` anchored at the head of the
list: the literal `/dp/` followed by exactly ten class characters; returns
the captured group. -/
def dpMatchAt (l : List Char) : Option (List Char) :=
  if "/dp/".toList.isPrefixOf l = true then
    if ((l.drop 4).take 10).length = 10 ∧
        ((l.drop 4).take 10).all isAsinChar = true then
      some ((l.drop 4).take 10)
    else none
  else none

/-- `re.search(r'/dp/([A-Z0-9]{10})', url)`: the leftmost anchored match. -/
def searchDp : List Char → Option (List Char)
  | [] => none
  | c :: cs =>
    match dpMatchAt (c :: cs) with
    | some a => some a
    | none => searchDp cs

/-- Match of the regex `/gp/product/([A-Z0-9]{10})` anchored at the head
of the list. -/
def gpMatchAt (l : List Char) : Option (List Char) :=
  if "/gp/product/".toList.isPrefixOf l = true then
    if ((l.drop 12).take 10).length = 10 ∧
        ((l.drop 12).take 10).all isAsinChar = true then
      some ((l.drop 12).take 10)
    else none
  else none

/-- `re.search(r'/gp/product/([A-Z0-9]{10})', url)`. -/
def searchGp : List Char → Option (List Char)
  | [] => none
  | c :: cs =>
    match gpMatchAt (c :: cs) with
    | some a => some a
    | none => searchGp cs

/-- The canonical affiliate form emitted by `convert_amazon_link`:
`f"https://www.amazon.in/dp/{asin}?tag={AMAZON_AFFILIATE_TAG}"` — the
marketplace domain is the fixed `www.amazon.in`, independent of the input
URL's domain. -/
def canonicalAffiliate (tag : String) (asin : List Char) : String :=
  "https://www.amazon.in/dp/" ++ String.mk asin ++ "?tag=" ++ tag

/-- The fallback of `convert_amazon_link`: append the tag with `&` when
the URL already has a query, else with `?`. -/
def fallbackAppend (tag : String) (chars : List Char) : String :=
  String.mk chars ++ (if chars.contains '?' then "&" else "?") ++ "tag=" ++ tag

/-- The first two statements of `convert_amazon_link`: remove every
existing `tag=` and `ref=` parameter. -/
def convertStripped (url : String) : List Char :=
  let chars1 := stripParamFuel "tag".toList url.toList.length url.toList
  stripParamFuel "ref".toList chars1.length chars1

/-- `convert_amazon_link` from `scheduled_bot.py`, parameterised by the
affiliate `tag` (`AMAZON_AFFILIATE_TAG`) and by the network `resolve`
oracle used for `amzn.to` short links (`none` models the
`requests.head` call failing, whose handler falls through to the
fallback).  The fuel bounds the recursion on resolved short links; the
claims only exercise positive fuel. -/
def convert_amazon_link (resolve : String → Option String) (tag : String) :
    Nat → String → String
  | 0, url => url
  | fuel + 1, url =>
    let chars2 := convertStripped url
    match searchDp chars2 with
    | some asin => canonicalAffiliate tag asin
    | none =>
      match searchGp chars2 with
      | some asin => canonicalAffiliate tag asin
      | none =>
        if containsSub "amzn.to".toList chars2 then
          match resolve (String.mk chars2) with
          | some resolved => convert_amazon_link resolve tag fuel resolved
          | none => fallbackAppend tag chars2
        else fallbackAppend tag chars2

/- ### Flipkart conversion (`bot.py`, `convert_flipkart_to_earnkaro`) -/

/-- A Python value that is either a string or a list of strings; used to
model the dynamically-typed argument `bot.py` passes to
`urllib.parse.quote`. -/
inductive PyStrOrList where
  | pystr (s : String)
  | pylist (xs : List String)

/-- UTF-8 bytes of a code point. -/
def utf8Bytes (n : Nat) : List Nat :=
  if n < 0x80 then [n]
  else if n < 0x800 then [0xC0 + n / 0x40, 0x80 + n % 0x40]
  else if n < 0x10000 then
    [0xE0 + n / 0x1000, 0x80 + n / 0x40 % 0x40, 0x80 + n % 0x40]
  else
    [0xF0 + n / 0x40000, 0x80 + n / 0x1000 % 0x40, 0x80 + n / 0x40 % 0x40,
      0x80 + n % 0x40]

/-- Hex digit. -/
def hexDigit (n : Nat) : Char :=
  if n < 10 then Char.ofNat (48 + n) else Char.ofNat (55 + n)

/-- Characters `urllib.parse.quote` never encodes. -/
def quoteAlwaysSafe (c : Char) : Bool :=
  ('A' ≤ c && c ≤ 'Z') || ('a' ≤ c && c ≤ 'z') || ('0' ≤ c && c ≤ '9') ||
    c = '_' || c = '.' || c = '-' || c = '~'

/-- Models `urllib.parse.quote`: percent-encodes a string argument, and
raises `TypeError` for any non-string, non-bytes argument (in `bot.py` it
receives the list produced by `str.split`). -/
def urllib_parse_quote (safe : String) : PyStrOrList → Except String String
  | .pystr s =>
    .ok (String.mk (s.toList.foldr
      (fun c acc =>
        if quoteAlwaysSafe c || (c.toNat < 128 && safe.toList.contains c) then
          c :: acc
        else
          (utf8Bytes c.toNat).foldr
            (fun b acc2 => '%' :: hexDigit (b / 16) :: hexDigit (b % 16) :: acc2)
            acc)
      []))
  | .pylist _ => .error "TypeError: quote_from_bytes() expected bytes"

/-- The `EARNKARO_ID` constant of `bot.py`. -/
def EARNKARO_ID : String := "your_earnkaro_id"

/-- `convert_flipkart_to_earnkaro`: splits the URL on `?` (producing a
list), passes that list to `urllib.parse.quote`, and returns the original
URL from the exception handler when the quote call raises. -/
def convert_flipkart_to_earnkaro (url : String) : String :=
  let clean_url : PyStrOrList := .pylist (url.splitOn "?")
  match urllib_parse_quote ":/?#[]@!$&'()*+,;=" clean_url with
  | .ok encoded =>
    "https://earnkaro.com/ref/" ++ EARNKARO_ID ++ "/?url=" ++ encoded
  | .error _ => url

/- ### Theorems -/

/-- C1 (counterexample): at index 3 with a store of 3 links,
`save_progress` stores `(1, 3)`, not the claimed
`(3 / 3 + 1, 3 % 3 + 1) = (2, 1)`. -/
theorem save_progress_cycle_boundary_counterexample :
    save_progress ["/dp/1", "/dp/2", "/dp/3"] 3 ≠ (3 / 3 + 1, 3 % 3 + 1) := by
  decide

/-- C1 (amended): for a non-empty store, the persisted pair is
`(index / total + 1, index % total + 1)` whenever the index is zero or not
a multiple of the store size; at a positive multiple the code instead
persists `(index / total, total)`. -/
theorem save_progress_cycle_fields (links : List String)
    (current_index : Nat) (hne : links ≠ []) :
    (¬(0 < current_index ∧ current_index % links.length = 0) →
      save_progress links current_index =
        (current_index / links.length + 1,
          current_index % links.length + 1)) ∧
    ((0 < current_index ∧ current_index % links.length = 0) →
      save_progress links current_index =
        (current_index / links.length, links.length)) := by
  have h : links.isEmpty = false := by
    cases links with
    | nil => exact absurd rfl hne
    | cons a l => rfl
  constructor
  · intro hnot
    simp [save_progress, h, hnot]
  · intro hyes
    simp [save_progress, h, hyes]

/-- C1 (witness for the amended theorem): at the boundary index 3 of a
3-link store the persisted pair is `(1, 3)`. -/
theorem save_progress_cycle_fields_witness :
    save_progress ["/dp/1", "/dp/2", "/dp/3"] 3 = (3 / 3, 3) :=
  (save_progress_cycle_fields ["/dp/1", "/dp/2", "/dp/3"] 3
    (by decide)).2 (by decide)

/-- C5: the commit omits the revision token when the preliminary GET
returns 404, carries the captured token when the GET returns 200 with a
(necessarily non-empty) sha, reports success exactly when the PUT status
is 200 or 201, and the progress fetch returns `none` on a 404. -/
theorem commit_and_fetch_revision_protocol (getSha : String)
    (putStatus idx : Nat) (token : String) (hsha : getSha ≠ "")
    (htok : token ≠ "") :
    commit_request_sha 404 getSha = none ∧
    commit_request_sha 200 getSha = some getSha ∧
    (commit_to_github_success putStatus = true ↔
      putStatus = 200 ∨ putStatus = 201) ∧
    get_progress_from_github (some token) 404 idx = none := by
  refine ⟨by simp [commit_request_sha, commit_captured_sha], ?_, ?_, ?_⟩
  · simp [commit_request_sha, commit_captured_sha, hsha]
  · simp [commit_to_github_success]
  · simp [get_progress_from_github, falsyOpt, htok]

/-- C5 (witness): a concrete instantiation with sha `"abc"`, PUT status
200 and token `"t"`. -/
theorem commit_and_fetch_revision_protocol_witness :
    commit_request_sha 404 "abc" = none ∧
    commit_request_sha 200 "abc" = some "abc" ∧
    (commit_to_github_success 200 = true ↔ (200 : Nat) = 200 ∨ (200 : Nat) = 201) ∧
    get_progress_from_github (some "t") 404 7 = none :=
  commit_and_fetch_revision_protocol "abc" 200 7 "t" (by decide) (by decide)

/-- C6 (counterexample): with every required variable present, no
exception, and an empty link store, `main` exits with status 1, not 0. -/
theorem main_exit_code_empty_store_counterexample :
    main_exit_code (some "b") (some "c") (some "a") (some "g") 0 false 0 ≠ 0 := by
  decide

/-- C6 (amended): with all required configuration present, `main` exits 1
when the link store is empty, exits 1 when the session raises an
unrecoverable exception, and exits 0 on normal completion with a non-empty
store regardless of how many items succeeded; with configuration missing
it exits 1. -/
theorem main_exit_code_policy (bot_token channel_id amazon_tag github_token :
    Option String) (n sent : Nat)
    (hconf : main_required_missing bot_token channel_id amazon_tag
      github_token = false) :
    main_exit_code bot_token channel_id amazon_tag github_token 0 false sent
        = 1 ∧
    main_exit_code bot_token channel_id amazon_tag github_token n true sent
        = 1 ∧
    (0 < n →
      main_exit_code bot_token channel_id amazon_tag github_token n false sent
        = 0) := by
  refine ⟨by simp [main_exit_code, hconf], ?_, ?_⟩
  · rcases Nat.eq_zero_or_pos n with h | h <;> simp [main_exit_code, hconf, h]
  · intro h
    simp [main_exit_code, hconf, Nat.pos_iff_ne_zero.mp h]

/-- C6 (witness): with all variables set, a 5-link store, no exception and
2 items sent, `main` exits 0 (and exits 1 on the empty store or on an
exception). -/
theorem main_exit_code_policy_witness :
    main_exit_code (some "b") (some "c") (some "a") (some "g") 0 false 2 = 1 ∧
    main_exit_code (some "b") (some "c") (some "a") (some "g") 5 true 2 = 1 ∧
    ((0 : Nat) < 5 →
      main_exit_code (some "b") (some "c") (some "a") (some "g") 5 false 2 = 0) :=
  main_exit_code_policy (some "b") (some "c") (some "a") (some "g") 5 2
    (by decide)

/-- Folding front-insertion over a reversed list appends the list to the
accumulator. -/
theorem foldl_cons_eq_reverse_append {α : Type} (l acc : List α) :
    l.foldl (fun acc p => p :: acc) acc = l.reverse ++ acc := by
  induction l generalizing acc with
  | nil => rfl
  | cons x xs ih => simp [List.foldl_cons, ih, List.reverse_cons]

/-- C7: merging `k ≤ 100` new products into a feed of `m` products yields
exactly `min (k + m) 100` products whose first `k` entries are the new
products in insertion order. -/
theorem update_website_products_retention {α : Type}
    (new_products website_products : List α)
    (hk : new_products.length ≤ 100) :
    (update_website_products new_products website_products).length =
        min (new_products.length + website_products.length) 100 ∧
    (update_website_products new_products website_products).take
        new_products.length = new_products := by
  have hfold : update_website_products new_products website_products =
      (new_products ++ website_products).take 100 := by
    simp [update_website_products, foldl_cons_eq_reverse_append]
  constructor
  · rw [hfold, List.length_take, List.length_append, Nat.min_comm]
  · rw [hfold, List.take_take, Nat.min_eq_left hk, List.take_left]

/-- C7 (witness): two new products into a one-product feed. -/
theorem update_website_products_retention_witness :
    (update_website_products [1, 2] [3]).length = min ([1, 2].length + [3].length) 100 ∧
    (update_website_products [1, 2] [3]).take [1, 2].length = [1, 2] :=
  update_website_products_retention [1, 2] [3] (by decide)

/-- C9: the stored file `["u1", "u2"]` can legitimately be enumerated by
the set as `["u2", "u1"]` (set iteration order is unspecified), and then a
save with no new links writes `["u2", "u1"]` — not the original order
`["u1", "u2"]` the spec requires. -/
theorem save_links_set_order_lost :
    isSetEnumerationOf ["u2", "u1"] ["u1", "u2"] ∧
    save_links ["u2", "u1"] [] = ["u2", "u1"] ∧
    ["u2", "u1"] ≠ ["u1", "u2"] := by
  refine ⟨⟨by decide, by decide, by decide⟩, by decide, by decide⟩

/-- `getD` at an in-range position. -/
theorem getD_of_lt (l : List String) {n : Nat} (h : n < l.length) :
    l.getD n "" = l[n] := by
  simp [List.getD_eq_getElem?_getD, List.getElem?_eq_getElem h]

/-- `getD` at an in-range position is a member. -/
theorem getD_mem_of_lt (l : List String) {n : Nat} (h : n < l.length) :
    l.getD n "" ∈ l := by
  rw [getD_of_lt l h]
  exact List.getElem_mem h

/-- Closed form of the selection loop on a store of valid links: starting
at a cursor at most the store size with enough fuel, the loop returns the
already-selected links followed by the next `count - selected.length`
store entries in cyclic order, and leaves the cursor one past the last
selected position (in `[1, length]`). -/
theorem selectLoop_spec (links : List String) (hne : links ≠ [])
    (hval : ∀ l ∈ links, is_valid_amazon_link l = true) (count : Nat) :
    ∀ (fuel current_index : Nat) (selected : List String),
      current_index ≤ links.length →
      selected.length ≤ count →
      count - selected.length ≤ fuel →
      selectLoop links count fuel current_index selected =
        (selected ++ (List.range (count - selected.length)).map
            (fun i => links.getD ((current_index + i) % links.length) ""),
          if count - selected.length = 0 then current_index
          else (current_index + (count - selected.length) - 1) %
            links.length + 1) := by
  have hL : 0 < links.length := List.length_pos.mpr hne
  intro fuel
  induction fuel with
  | zero =>
    intro idx sel _ _ hfuel
    have hk : count - sel.length = 0 := Nat.le_zero.mp hfuel
    simp [selectLoop, hk]
  | succ fuel ih =>
    intro idx sel hidx hlen hfuel
    by_cases h : sel.length < count
    · have hmodlt : idx % links.length < links.length := Nat.mod_lt idx hL
      have hidx' : (if links.length ≤ idx then 0 else idx) =
          idx % links.length := by
        rcases Nat.lt_or_ge idx links.length with hlt | hge
        · simp [Nat.not_le.mpr hlt, Nat.mod_eq_of_lt hlt]
        · have heq : idx = links.length := Nat.le_antisymm hidx hge
          simp [heq]
      have hv : is_valid_amazon_link
          (links.getD (idx % links.length) "") = true :=
        hval _ (getD_mem_of_lt links hmodlt)
      have hrec := ih (idx % links.length + 1)
        (sel ++ [links.getD (idx % links.length) ""])
        (Nat.succ_le_of_lt hmodlt)
        (by simpa using Nat.succ_le_of_lt h)
        (by simp only [List.length_append, List.length_cons,
              List.length_nil]; omega)
      rw [selectLoop]
      simp only [if_pos h, hidx', hv, if_true, hrec]
      have hk : 0 < count - sel.length := Nat.sub_pos_of_lt h
      have hk1 : count - (sel ++ [links.getD (idx % links.length) ""]).length
          = count - sel.length - 1 := by
        simp only [List.length_append, List.length_cons, List.length_nil]
        omega
      rw [hk1]
      refine Prod.ext ?_ ?_
      · show sel ++ [links.getD (idx % links.length) ""] ++
            (List.range (count - sel.length - 1)).map
              (fun i => links.getD
                ((idx % links.length + 1 + i) % links.length) "") =
          sel ++ (List.range (count - sel.length)).map
            (fun i => links.getD ((idx + i) % links.length) "")
        rw [List.append_assoc]
        congr 1
        have hsucc : count - sel.length = (count - sel.length - 1) + 1 := by
          omega
        conv_rhs => rw [hsucc]
        rw [List.range_succ_eq_map, List.map_cons, List.map_map,
          List.singleton_append]
        congr 1
        refine List.map_congr_left ?_
        intro i _
        show links.getD ((idx % links.length + 1 + i) % links.length) "" =
          links.getD ((idx + Nat.succ i) % links.length) ""
        congr 1
        rw [Nat.add_assoc, Nat.mod_add_mod]
        congr 1
        omega
      · show (if count - sel.length - 1 = 0 then idx % links.length + 1
            else (idx % links.length + 1 + (count - sel.length - 1) - 1) %
              links.length + 1) =
          if count - sel.length = 0 then idx
          else (idx + (count - sel.length) - 1) % links.length + 1
        rw [if_neg (show ¬count - sel.length = 0 by omega)]
        by_cases hone : count - sel.length - 1 = 0
        · rw [if_pos hone, show count - sel.length = 1 by omega,
            Nat.add_sub_cancel]
        · rw [if_neg hone,
            show idx % links.length + 1 + (count - sel.length - 1) - 1 =
              idx % links.length + (count - sel.length - 1) by omega,
            Nat.mod_add_mod,
            show idx + (count - sel.length) - 1 =
              idx + (count - sel.length - 1) by omega]
    · have hk : count - sel.length = 0 := by omega
      rw [selectLoop]
      simp [h, hk]

/-- Closed form of `get_next_links` on a store of valid links. -/
theorem get_next_links_spec (links : List String) (hne : links ≠ [])
    (hval : ∀ l ∈ links, is_valid_amazon_link l = true)
    (current_index count : Nat) (hidx : current_index ≤ links.length)
    (hcount : count ≤ links.length * 2) :
    get_next_links links current_index count =
      ((List.range count).map
          (fun i => links.getD ((current_index + i) % links.length) ""),
        if count = 0 then current_index
        else (current_index + count - 1) % links.length + 1) := by
  have hE : links.isEmpty = false := by
    cases links with
    | nil => exact absurd rfl hne
    | cons a l => rfl
  have hspec := selectLoop_spec links hne hval count (links.length * 2)
    current_index [] hidx (Nat.zero_le _) (by simpa using hcount)
  rw [get_next_links]
  simp only [hE, Bool.false_eq_true, if_false]
  simpa using hspec

/-- The cursor left by `get_next_links` never exceeds the store size when
the starting cursor does not. -/
theorem get_next_links_snd_le (links : List String) (hne : links ≠ [])
    (hval : ∀ l ∈ links, is_valid_amazon_link l = true)
    (current_index count : Nat) (hidx : current_index ≤ links.length)
    (hcount : count ≤ links.length * 2) :
    (get_next_links links current_index count).2 ≤ links.length := by
  have hL : 0 < links.length := List.length_pos.mpr hne
  rw [get_next_links_spec links hne hval current_index count hidx hcount]
  by_cases h0 : count = 0
  · simpa [h0] using hidx
  · simp only [h0, if_false]
    exact Nat.succ_le_of_lt (Nat.mod_lt _ hL)

/-- The cursor left by `get_next_links` continues the cyclic walk: offset
`j` from the new cursor is offset `count + j` from the old one. -/
theorem get_next_links_snd_mod (links : List String) (hne : links ≠ [])
    (hval : ∀ l ∈ links, is_valid_amazon_link l = true)
    (current_index count : Nat) (hidx : current_index ≤ links.length)
    (hcount : count ≤ links.length * 2) (j : Nat) :
    ((get_next_links links current_index count).2 + j) % links.length =
      (current_index + (count + j)) % links.length := by
  rw [get_next_links_spec links hne hval current_index count hidx hcount]
  by_cases h0 : count = 0
  · simp [h0]
  · simp only [h0, if_false]
    have h1 : (current_index + count - 1) % links.length + 1 + j =
        (current_index + count - 1) % links.length + (1 + j) := by omega
    rw [h1, Nat.mod_add_mod]
    congr 1
    omega

/-- Closed form of a sequence of `get_next_links` calls on a store of
valid links: the concatenated selections walk the store cyclically from
the starting cursor, and the final cursor stays at most the store size. -/
theorem takeSeq_spec (links : List String) (hne : links ≠ [])
    (hval : ∀ l ∈ links, is_valid_amazon_link l = true) :
    ∀ (counts : List Nat) (current_index : Nat),
      current_index ≤ links.length →
      (∀ c ∈ counts, c ≤ links.length * 2) →
      (takeSeq links current_index counts).1 =
        (List.range counts.sum).map
          (fun i => links.getD ((current_index + i) % links.length) "") ∧
      (takeSeq links current_index counts).2 ≤ links.length := by
  intro counts
  induction counts with
  | nil =>
    intro idx hidx _
    exact ⟨by simp [takeSeq], hidx⟩
  | cons c cs ih =>
    intro idx hidx hc
    have hcle : c ≤ links.length * 2 := hc c (by simp)
    have hidx1 : (get_next_links links idx c).2 ≤ links.length :=
      get_next_links_snd_le links hne hval idx c hidx hcle
    obtain ⟨ih1, ih2⟩ := ih (get_next_links links idx c).2 hidx1
      (fun x hx => hc x (by simp [hx]))
    constructor
    · show (get_next_links links idx c).1 ++
          (takeSeq links (get_next_links links idx c).2 cs).1 =
        (List.range (c :: cs).sum).map
          (fun i => links.getD ((idx + i) % links.length) "")
      rw [ih1]
      have hfst : (get_next_links links idx c).1 =
          (List.range c).map
            (fun i => links.getD ((idx + i) % links.length) "") := by
        rw [get_next_links_spec links hne hval idx c hidx hcle]
      rw [hfst]
      have hsum : (c :: cs).sum = c + cs.sum := List.sum_cons
      rw [hsum, List.range_add, List.map_append, List.map_map]
      congr 1
      refine List.map_congr_left ?_
      intro j _
      show links.getD (((get_next_links links idx c).2 + j) % links.length) ""
          = links.getD ((idx + (c + j)) % links.length) ""
      rw [get_next_links_snd_mod links hne hval idx c hidx hcle j]
    · show (takeSeq links (get_next_links links idx c).2 cs).2 ≤ links.length
      exact ih2

/-- C2 (counterexample): with the valid 3-link store and starting index 4
(that is, beyond the store size), a `take(1)` wraps the cursor to 0 and
returns the first link, not the claimed `store[start % L]` (the second
link). -/
theorem take_start_beyond_length_counterexample :
    (get_next_links ["/dp/1", "/dp/2", "/dp/3"] 4 1).1 ≠
      [["/dp/1", "/dp/2", "/dp/3"].getD
        (4 % ["/dp/1", "/dp/2", "/dp/3"].length) ""] := by
  decide

/-- C2 (amended): for a store of valid links of length `L ≥ 1`, a starting
index at most `L`, and any sequence of `take` calls each requesting at
most `2 * L` links, the concatenation of the returned selections equals
`store[start % L], store[(start+1) % L], ...` for the cumulative count
requested. -/
theorem take_sequence_cyclic (links : List String)
    (hval : ∀ l ∈ links, is_valid_amazon_link l = true) (hne : links ≠ [])
    (counts : List Nat) (hc : ∀ c ∈ counts, c ≤ links.length * 2)
    (current_index : Nat) (hidx : current_index ≤ links.length) :
    (takeSeq links current_index counts).1 =
      (List.range counts.sum).map
        (fun i => links.getD ((current_index + i) % links.length) "") :=
  (takeSeq_spec links hne hval counts current_index hidx hc).1

/-- C2 (witness): the spec's scenario with a valid 3-link store: two
successive `take(2)` calls return the first two links and then the third
and (wrapping) first link, leaving cursors 2 and then 1, and their
concatenation is the 4-step cyclic walk from index 0. -/
theorem take_sequence_cyclic_witness :
    (takeSeq ["/dp/1", "/dp/2", "/dp/3"] 0 [2, 2]).1 =
      (List.range ([2, 2] : List Nat).sum).map
        (fun i => ["/dp/1", "/dp/2", "/dp/3"].getD
          ((0 + i) % ["/dp/1", "/dp/2", "/dp/3"].length) "") ∧
    get_next_links ["/dp/1", "/dp/2", "/dp/3"] 0 2 = (["/dp/1", "/dp/2"], 2) ∧
    get_next_links ["/dp/1", "/dp/2", "/dp/3"] 2 2 = (["/dp/3", "/dp/1"], 1) :=
  ⟨take_sequence_cyclic ["/dp/1", "/dp/2", "/dp/3"] (by decide) (by decide)
      [2, 2] (by decide) 0 (by decide),
    by decide, by decide⟩

/-- C3 (counterexample): with the configured morning quotas (3 telegram,
2 website) on a valid 3-link store, the website selection wraps around and
repeats links already given to the telegram selection, so the two sinks
overlap within one session. -/
theorem session_selections_overlap_counterexample :
    ¬ List.Disjoint
      (send_scheduled_links_selections ["/dp/1", "/dp/2", "/dp/3"] 0
        (SESSION_CONFIG_telegram_links "morning")
        (SESSION_CONFIG_website_links "morning")).1
      (send_scheduled_links_selections ["/dp/1", "/dp/2", "/dp/3"] 0
        (SESSION_CONFIG_telegram_links "morning")
        (SESSION_CONFIG_website_links "morning")).2 :=
  fun h => h (a := "/dp/1") (by decide) (by decide)

/-- C3 (amended): the telegram and website selections of one session are
disjoint provided the store has no duplicate links, all links are valid,
the starting cursor is at most the store size, and the two quotas together
do not exceed the store size. -/
theorem session_selections_disjoint (links : List String)
    (hval : ∀ l ∈ links, is_valid_amazon_link l = true)
    (hnd : links.Nodup) (current_index telegram_count website_count : Nat)
    (hidx : current_index ≤ links.length)
    (hsum : telegram_count + website_count ≤ links.length) :
    List.Disjoint
      (send_scheduled_links_selections links current_index telegram_count
        website_count).1
      (send_scheduled_links_selections links current_index telegram_count
        website_count).2 := by
  by_cases hne : links = []
  · intro x hx
    subst hne
    simp [send_scheduled_links_selections] at hx
  · have hL : 0 < links.length := List.length_pos.mpr hne
    have hE : links.isEmpty = false := by
      cases links with
      | nil => exact absurd rfl hne
      | cons a l => rfl
    have htle : telegram_count ≤ links.length * 2 := by omega
    have hwle : website_count ≤ links.length * 2 := by omega
    have hidx1 : (get_next_links links current_index telegram_count).2 ≤
        links.length :=
      get_next_links_snd_le links hne hval current_index telegram_count
        hidx htle
    intro x hx hw
    simp only [send_scheduled_links_selections, hE, Bool.false_eq_true,
      if_false] at hx hw
    rw [get_next_links_spec links hne hval current_index telegram_count
      hidx htle] at hx
    rw [get_next_links_spec links hne hval _ website_count hidx1 hwle] at hw
    simp only [List.mem_map, List.mem_range] at hx hw
    obtain ⟨i, hi, hxi⟩ := hx
    obtain ⟨j, hj, hxj⟩ := hw
    rw [get_next_links_snd_mod links hne hval current_index telegram_count
      hidx htle j] at hxj
    have hp1 : (current_index + i) % links.length < links.length :=
      Nat.mod_lt _ hL
    have hp2 : (current_index + (telegram_count + j)) % links.length <
        links.length := Nat.mod_lt _ hL
    rw [getD_of_lt links hp1] at hxi
    rw [getD_of_lt links hp2] at hxj
    have heq : links[(current_index + i) % links.length] =
        links[(current_index + (telegram_count + j)) % links.length] := by
      rw [hxi, hxj]
    have hidxeq : (current_index + i) % links.length =
        (current_index + (telegram_count + j)) % links.length :=
      (hnd.getElem_inj_iff).mp heq
    have hmodeq : i % links.length = (telegram_count + j) % links.length :=
      Nat.ModEq.add_left_cancel' current_index hidxeq
    have hieq : i = telegram_count + j := by
      rw [Nat.mod_eq_of_lt (by omega), Nat.mod_eq_of_lt (by omega)] at hmodeq
      exact hmodeq
    omega

/-- C3 (witness for the amended theorem): the morning quotas on a valid
duplicate-free 5-link store give disjoint selections. -/
theorem session_selections_disjoint_witness :
    List.Disjoint
      (send_scheduled_links_selections
        ["/dp/1", "/dp/2", "/dp/3", "/dp/4", "/dp/5"] 0 3 2).1
      (send_scheduled_links_selections
        ["/dp/1", "/dp/2", "/dp/3", "/dp/4", "/dp/5"] 0 3 2).2 :=
  session_selections_disjoint
    ["/dp/1", "/dp/2", "/dp/3", "/dp/4", "/dp/5"]
    (by decide) (by decide) 0 3 2 (by decide) (by decide)

/-- A list with no ampersand is wholly consumed by the greedy `[^&]*`. -/
theorem dropUntilAmp_eq_nil : ∀ t : List Char, '&' ∉ t → dropUntilAmp t = [] := by
  intro t
  induction t with
  | nil => intro _; rfl
  | cons c cs ih =>
    intro h
    rw [dropUntilAmp, if_neg (by intro hc; exact h (hc ▸ List.mem_cons_self c cs))]
    exact ih (fun hm => h (List.mem_cons_of_mem c hm))

/-- The parameter stripper is the identity on a segment free of `?` and
`&`, passing the remainder (and the leftover fuel) through. -/
theorem stripParamFuel_append (key : List Char) :
    ∀ l : List Char, (∀ c ∈ l, c ≠ '?' ∧ c ≠ '&') →
      ∀ (r : List Char) (fuel : Nat),
        stripParamFuel key (fuel + l.length) (l ++ r) =
          l ++ stripParamFuel key fuel r := by
  intro l
  induction l with
  | nil => intro _ r fuel; simp
  | cons c l' ih =>
    intro hl r fuel
    show stripParamFuel key (fuel + l'.length + 1) (c :: (l' ++ r)) =
      c :: (l' ++ stripParamFuel key fuel r)
    rw [stripParamFuel, if_neg (fun hand =>
      hand.1.elim (hl c (List.mem_cons_self c l')).1
        (hl c (List.mem_cons_self c l')).2)]
    rw [ih (fun x hx => hl x (List.mem_cons_of_mem c hx)) r fuel]

/-- Stripping `tag=` at a `?tag=` head with an ampersand-free value
consumes the whole remainder. -/
theorem stripParamFuel_qtag (t : List Char) (htag : '&' ∉ t) (fuel : Nat) :
    stripParamFuel "tag".toList (fuel + 1)
      ('?' :: ('t' :: 'a' :: 'g' :: '=' :: t)) = [] := by
  rw [stripParamFuel, if_pos ⟨Or.inl rfl, by simp [List.isPrefixOf]⟩]
  show stripParamFuel "tag".toList fuel (dropUntilAmp t) = []
  rw [dropUntilAmp_eq_nil t htag]
  cases fuel <;> rfl

/-- Characters of the `[A-Z0-9]` class are neither `?` nor `&`. -/
theorem asin_no_specials {a : List Char} (hv : a.all isAsinChar = true) :
    ∀ c ∈ a, c ≠ '?' ∧ c ≠ '&' := by
  intro c hc
  have h := List.all_eq_true.mp hv c hc
  constructor <;> rintro rfl <;> exact absurd h (by decide)

/-- A `dpMatchAt` hit is a ten-character `[A-Z0-9]` group. -/
theorem dpMatchAt_valid {l a : List Char} (h : dpMatchAt l = some a) :
    a.length = 10 ∧ a.all isAsinChar = true := by
  unfold dpMatchAt at h
  split at h
  · split at h
    · obtain rfl := Option.some.inj h
      assumption
    · exact absurd h (by simp)
  · exact absurd h (by simp)

/-- A `gpMatchAt` hit is a ten-character `[A-Z0-9]` group. -/
theorem gpMatchAt_valid {l a : List Char} (h : gpMatchAt l = some a) :
    a.length = 10 ∧ a.all isAsinChar = true := by
  unfold gpMatchAt at h
  split at h
  · split at h
    · obtain rfl := Option.some.inj h
      assumption
    · exact absurd h (by simp)
  · exact absurd h (by simp)

/-- A `searchDp` hit is a ten-character `[A-Z0-9]` group. -/
theorem searchDp_valid : ∀ {l a : List Char}, searchDp l = some a →
    a.length = 10 ∧ a.all isAsinChar = true := by
  intro l
  induction l with
  | nil => intro a h; exact absurd h (by simp [searchDp])
  | cons c cs ih =>
    intro a h
    rw [searchDp] at h
    rcases hd : dpMatchAt (c :: cs) with _ | b
    · rw [hd] at h
      exact ih h
    · rw [hd] at h
      obtain rfl := Option.some.inj h
      exact dpMatchAt_valid hd

/-- A `searchGp` hit is a ten-character `[A-Z0-9]` group. -/
theorem searchGp_valid : ∀ {l a : List Char}, searchGp l = some a →
    a.length = 10 ∧ a.all isAsinChar = true := by
  intro l
  induction l with
  | nil => intro a h; exact absurd h (by simp [searchGp])
  | cons c cs ih =>
    intro a h
    rw [searchGp] at h
    rcases hd : gpMatchAt (c :: cs) with _ | b
    · rw [hd] at h
      exact ih h
    · rw [hd] at h
      obtain rfl := Option.some.inj h
      exact gpMatchAt_valid hd

/-- `dpMatchAt` fails where the literal `/dp/` does not start. -/
theorem dpMatchAt_none_of_not_prefix {t : List Char}
    (h : "/dp/".toList.isPrefixOf t = false) : dpMatchAt t = none := by
  unfold dpMatchAt
  rw [if_neg (by rw [h]; exact Bool.false_ne_true)]

/-- Step lemma: the leftmost search skips a failing position. -/
theorem searchDp_cons_of_none {c : Char} {cs : List Char}
    (h : dpMatchAt (c :: cs) = none) : searchDp (c :: cs) = searchDp cs := by
  rw [searchDp, h]

/-- Whether a pattern starts a list with at least as many elements is
unaffected by what is appended after those elements. -/
theorem isPrefixOf_append_of_length_le :
    ∀ (pat l : List Char), pat.length ≤ l.length → ∀ r : List Char,
      pat.isPrefixOf (l ++ r) = pat.isPrefixOf l := by
  intro pat
  induction pat with
  | nil => intro l _ r; simp [List.isPrefixOf]
  | cons p ps ih =>
    intro l hlen r
    cases l with
    | nil => exact absurd hlen (by simp)
    | cons b bs =>
      show (p :: ps).isPrefixOf (b :: (bs ++ r)) = (p :: ps).isPrefixOf (b :: bs)
      simp only [List.isPrefixOf]
      rw [ih bs (Nat.le_of_succ_le_succ (by simpa using hlen)) r]

/-- The leftmost search skips an entire region none of whose positions
starts the literal `/dp/` (the spillover matches are decided by the four
characters following the region, never by the group). -/
theorem searchDp_skip (q : List Char)
    (hq : ∀ s ∈ q.tails, s ≠ [] →
      "/dp/".toList.isPrefixOf (s ++ ['/', 'd', 'p', '/']) = false)
    (a : List Char) :
    searchDp (q ++ ('/' :: 'd' :: 'p' :: '/' :: a)) =
      searchDp ('/' :: 'd' :: 'p' :: '/' :: a) := by
  induction q with
  | nil => rfl
  | cons c q' ih =>
    have hlen : ("/dp/".toList).length ≤
        ((c :: q') ++ ['/', 'd', 'p', '/']).length := by
      simp [List.length_append]
    have hpre : "/dp/".toList.isPrefixOf
        ((c :: q') ++ ('/' :: 'd' :: 'p' :: '/' :: a)) = false := by
      have heq : (c :: q') ++ ('/' :: 'd' :: 'p' :: '/' :: a) =
          ((c :: q') ++ ['/', 'd', 'p', '/']) ++ a := by
        simp
      rw [heq, isPrefixOf_append_of_length_le _ _ hlen a]
      exact hq (c :: q') (by simp [List.mem_tails]) (by simp)
    have hmatch :
        dpMatchAt (c :: (q' ++ ('/' :: 'd' :: 'p' :: '/' :: a))) = none :=
      dpMatchAt_none_of_not_prefix (by simpa using hpre)
    show searchDp (c :: (q' ++ ('/' :: 'd' :: 'p' :: '/' :: a))) = _
    rw [searchDp_cons_of_none hmatch]
    exact ih (fun s hs hne =>
      hq s (by
        rw [List.mem_tails] at hs ⊢
        exact hs.trans (List.suffix_cons c q')) hne)

/-- `dpMatchAt` succeeds on the literal `/dp/` followed by a well-formed
group. -/
theorem dpMatchAt_exact (a : List Char) (ha : a.length = 10)
    (hv : a.all isAsinChar = true) :
    dpMatchAt ('/' :: 'd' :: 'p' :: '/' :: a) = some a := by
  have htake : a.take 10 = a := by rw [← ha]; exact List.take_length a
  unfold dpMatchAt
  rw [if_pos (by simp [List.isPrefixOf]),
    show ('/' :: 'd' :: 'p' :: '/' :: a).drop 4 = a from rfl, htake,
    if_pos ⟨ha, hv⟩]

/-- `searchDp` on the canonical affiliate prefix followed by a well-formed
group finds exactly that group. -/
theorem searchDp_canonical (a : List Char) (ha : a.length = 10)
    (hv : a.all isAsinChar = true) :
    searchDp ("https://www.amazon.in/dp/".toList ++ a) = some a := by
  have hsplit : "https://www.amazon.in/dp/".toList ++ a =
      "https://www.amazon.in".toList ++ ('/' :: 'd' :: 'p' :: '/' :: a) := by
    rfl
  rw [hsplit, searchDp_skip "https://www.amazon.in".toList (by decide) a,
    searchDp, dpMatchAt_exact a ha hv]

/-- The parameter stripper is the identity on a list free of `?` and `&`. -/
theorem stripParamFuel_id (key : List Char) (l : List Char)
    (hl : ∀ c ∈ l, c ≠ '?' ∧ c ≠ '&') :
    stripParamFuel key l.length l = l := by
  have h := stripParamFuel_append key l hl [] 0
  rw [List.append_nil, Nat.zero_add] at h
  simpa [stripParamFuel] using h

/-- Stripping `tag=` and then `ref=` from the canonical affiliate URL
(with an ampersand-free tag) leaves the canonical prefix and the group. -/
theorem convertStripped_canonical (tag : String) (a : List Char)
    (ha : a.length = 10) (hv : a.all isAsinChar = true)
    (htag : '&' ∉ tag.toList) :
    convertStripped (canonicalAffiliate tag a) =
      "https://www.amazon.in/dp/".toList ++ a := by
  have hP : ∀ c ∈ "https://www.amazon.in/dp/".toList,
      c ≠ '?' ∧ c ≠ '&' := by decide
  have hnospec : ∀ c ∈ "https://www.amazon.in/dp/".toList ++ a,
      c ≠ '?' ∧ c ≠ '&' := by
    intro c hc
    rcases List.mem_append.mp hc with hc | hc
    · exact hP c hc
    · exact asin_no_specials hv c hc
  have hchars : (canonicalAffiliate tag a).toList =
      ("https://www.amazon.in/dp/".toList ++ a) ++
        ('?' :: ('t' :: 'a' :: 'g' :: '=' :: tag.toList)) := by
    show ((("https://www.amazon.in/dp/" ++ String.mk a) ++ "?tag=") ++
      tag).toList = _
    simp only [String.toList, String.data_append, List.append_assoc]
    rfl
  have hlen : (("https://www.amazon.in/dp/".toList ++ a) ++
        ('?' :: ('t' :: 'a' :: 'g' :: '=' :: tag.toList))).length =
      (5 + tag.toList.length) +
        ("https://www.amazon.in/dp/".toList ++ a).length := by
    simp [List.length_append]
    omega
  have hstep1 : stripParamFuel "tag".toList
      (canonicalAffiliate tag a).toList.length
      (canonicalAffiliate tag a).toList =
      "https://www.amazon.in/dp/".toList ++ a := by
    rw [hchars, hlen,
      stripParamFuel_append "tag".toList _ hnospec _ (5 + tag.toList.length),
      show (5 : Nat) + tag.toList.length = (4 + tag.toList.length) + 1 from
        by omega,
      stripParamFuel_qtag tag.toList htag (4 + tag.toList.length),
      List.append_nil]
  show stripParamFuel "ref".toList
      (stripParamFuel "tag".toList (canonicalAffiliate tag a).toList.length
        (canonicalAffiliate tag a).toList).length
      (stripParamFuel "tag".toList (canonicalAffiliate tag a).toList.length
        (canonicalAffiliate tag a).toList) =
    "https://www.amazon.in/dp/".toList ++ a
  rw [hstep1]
  exact stripParamFuel_id "ref".toList _ hnospec

/-- When the stripped URL contains an ASIN (found by the `/dp/` pattern,
or by the `/gp/product/` pattern with the first failing),
`convert_amazon_link` emits the canonical affiliate form. -/
theorem convert_eq_canonical (resolve : String → Option String)
    (tag : String) (fuel : Nat) (url : String) (a : List Char)
    (h : searchDp (convertStripped url) = some a ∨
      (searchDp (convertStripped url) = none ∧
        searchGp (convertStripped url) = some a)) :
    convert_amazon_link resolve tag (fuel + 1) url =
      canonicalAffiliate tag a := by
  rcases h with h | ⟨h1, h2⟩
  · rw [convert_amazon_link]
    simp only [h]
  · rw [convert_amazon_link]
    simp only [h1, h2]

/-- C8: the conversion is idempotent on every URL whose stripped form
contains a well-formed ten-character identifier (found by the `/dp/` or
`/gp/product/` pattern), for any ampersand-free affiliate tag: a second
application returns the canonical URL unchanged. -/
theorem convert_amazon_link_idempotent (resolve : String → Option String)
    (tag url : String) (a : List Char) (htag : '&' ∉ tag.toList)
    (h : searchDp (convertStripped url) = some a ∨
      (searchDp (convertStripped url) = none ∧
        searchGp (convertStripped url) = some a)) (f g : Nat) :
    convert_amazon_link resolve tag (f + 1)
        (convert_amazon_link resolve tag (g + 1) url) =
      convert_amazon_link resolve tag (g + 1) url := by
  have hspec : a.length = 10 ∧ a.all isAsinChar = true := by
    rcases h with h' | ⟨_, h'⟩
    · exact searchDp_valid h'
    · exact searchGp_valid h'
  have h1 : convert_amazon_link resolve tag (g + 1) url =
      canonicalAffiliate tag a :=
    convert_eq_canonical resolve tag g url a h
  rw [h1]
  have hsearch : searchDp (convertStripped (canonicalAffiliate tag a)) =
      some a := by
    rw [convertStripped_canonical tag a hspec.1 hspec.2 htag]
    exact searchDp_canonical a hspec.1 hspec.2
  exact convert_eq_canonical resolve tag f (canonicalAffiliate tag a) a
    (Or.inl hsearch)

/-- C8 (witness): converting the C4 scenario URL twice equals converting
it once. -/
theorem convert_amazon_link_idempotent_witness :
    convert_amazon_link (fun _ => none) "new-21" 1
        (convert_amazon_link (fun _ => none) "new-21" 1
          "https://site/dp/B08N5WRWNW?tag=old-20") =
      convert_amazon_link (fun _ => none) "new-21" 1
        "https://site/dp/B08N5WRWNW?tag=old-20" :=
  convert_amazon_link_idempotent (fun _ => none) "new-21"
    "https://site/dp/B08N5WRWNW?tag=old-20" "B08N5WRWNW".toList
    (by decide) (Or.inl (by decide)) 0 0

/-- C4 (counterexample): the converter does not keep the input marketplace
domain `site`; the claimed output is not what the code returns. -/
theorem convert_amazon_link_domain_counterexample :
    convert_amazon_link (fun _ => none) "new-21" 1
        "https://site/dp/B08N5WRWNW?tag=old-20" ≠
      "https://site/dp/B08N5WRWNW?tag=new-21" := by
  decide

/-- C4 (amended): on `https://site/dp/B08N5WRWNW?tag=old-20` with tag
`new-21` the converter strips the old tag and emits the canonical form on
the fixed marketplace domain `www.amazon.in`, normalizing away all other
URL decoration. -/
theorem convert_amazon_link_canonical_domain :
    convert_amazon_link (fun _ => none) "new-21" 1
        "https://site/dp/B08N5WRWNW?tag=old-20" =
      "https://www.amazon.in/dp/B08N5WRWNW?tag=new-21" := by
  decide

/-- C10: `convert_flipkart_to_earnkaro` returns every input unchanged: the
list produced by `split('?')` makes `urllib.parse.quote` raise
`TypeError`, and the handler returns the original URL. -/
theorem convert_flipkart_identity (url : String) :
    convert_flipkart_to_earnkaro url = url := rfl
